import Mathlib

set_option maxRecDepth 4000

/-!
Shallow embedding of the behavioural core of the instragram backend:
the Redis-backed fixed-window rate limiter with trusted-proxy client
identification (backend/services/rate_limiter.py), the bounded upload
reader and image pipeline (backend/services/images.py), the Argon2
password-hashing wrapper (backend/core/security.py), the refresh-token
lifecycle of the auth endpoints (backend/api/v1/auth.py), and the feed
and post read endpoints (backend/api/v1/feed.py, posts.py).

External collaborators (Redis, the ipaddress library, PIL, argon2) are
modelled by explicit state passing or abstract function parameters;
every function of the repository itself is translated clause by clause
from its Python source.
-/

namespace Util

/-- Splits a character list on a separator character, like the Python
str.split method: splitting the empty string yields one empty field. -/
def splitOnChar (sep : Char) (s : List Char) : List (List Char) :=
  s.foldr
    (fun c acc =>
      match acc with
      | [] => [[c]]
      | cur :: rest => if c = sep then [] :: cur :: rest else (c :: cur) :: rest)
    [[]]

end Util

namespace RateLimit

/-- State of the shared Redis counter store used by the rate limiter:
an association list of counters (INCR targets) and one of the TTLs
installed by EXPIRE. -/
structure RedisState where
  counters : List (String × Nat)
  expiries : List (String × Nat)
deriving DecidableEq, Repr

def RedisState.empty : RedisState := ⟨[], []⟩

/-- Sets a key in an association list, replacing an existing binding. -/
def setAssoc : List (String × Nat) → String → Nat → List (String × Nat)
  | [], k, v => [(k, v)]
  | (k', v') :: rest, k, v =>
      if k' = k then (k, v) :: rest else (k', v') :: setAssoc rest k v

/-- Redis INCR: atomically increments a counter (creating it at 0) and
returns the post-increment value. -/
def RedisState.incr (st : RedisState) (k : String) : Nat × RedisState :=
  let c := (st.counters.lookup k).getD 0 + 1
  (c, { st with counters := setAssoc st.counters k c })

/-- Redis EXPIRE: installs a TTL on a key. -/
def RedisState.expire (st : RedisState) (k : String) (ttl : Nat) : RedisState :=
  { st with expiries := setAssoc st.expiries k ttl }

/-- The RateLimiter class of backend/services/rate_limiter.py (its
Redis client lives in the explicit RedisState instead). -/
structure RateLimiter where
  limit : Nat
  window_seconds : Nat
  prefixStr : String
deriving DecidableEq, Repr

/-- RateLimiter.__init__: clamps a negative limit or window to zero
with max(limit, 0) and max(window_seconds, 0). -/
def RateLimiter.init (limit window_seconds : Int) (prefixStr : String) : RateLimiter :=
  { limit := (max limit 0).toNat
    window_seconds := (max window_seconds 0).toNat
    prefixStr := prefixStr }

/-- The Redis key built by RateLimiter.allow for a client key and a
window bucket. -/
def redisKeyFor (rl : RateLimiter) (key : String) (bucket : Nat) : String :=
  rl.prefixStr ++ ":" ++ key ++ ":" ++ toString bucket

/-- RateLimiter.allow, with the wall clock passed explicitly: returns
True when limiting is disabled; otherwise increments the counter of
the current fixed window, installs the window-length TTL on the first
increment, and allows iff the post-increment count is within the
limit. -/
def RateLimiter.allow (rl : RateLimiter) (now : Nat) (key : String) (st : RedisState) :
    Bool × RedisState :=
  if rl.limit = 0 ∨ rl.window_seconds = 0 then (true, st)
  else
    let bucket := now / rl.window_seconds
    let rk := redisKeyFor rl key bucket
    let res := st.incr rk
    let st2 := if res.fst = 1 then res.snd.expire rk rl.window_seconds else res.snd
    (decide (res.fst ≤ rl.limit), st2)

/-- Fixture: a limiter configured with limit 2 and window 60. -/
def demoLimiter : RateLimiter := RateLimiter.init 2 60 "rate-limit"

/-- Fixture: store after one allowed call at t = 0. -/
def demoS1 : RedisState := (demoLimiter.allow 0 "client" RedisState.empty).snd

/-- Fixture: store after two allowed calls at t = 0. -/
def demoS2 : RedisState := (demoLimiter.allow 0 "client" demoS1).snd

/-- Fixture: store after three calls at t = 0. -/
def demoS3 : RedisState := (demoLimiter.allow 0 "client" demoS2).snd

end RateLimit

namespace ClientId

/-- Header values and identifiers are modelled as character lists. -/
abbrev Chars := List Char

/-- The part of a Starlette request seen by the client identifier: the
transport-layer peer address (request.client.host) and the request
headers. -/
structure Request where
  client_host : Option Chars
  headers : List (String × Chars)

/-- The configured environment plus the ipaddress library: the ordered
forwarding-header names (settings.rate_limit_ip_headers), the address
parser (ipaddress.ip_address, returning an abstract address on
syntactically valid input), and the trusted-proxy networks as
membership tests (addr in network). -/
structure Env where
  ip_headers : List String
  parse_ip : Chars → Option Nat
  trusted : List (Nat → Bool)

/-- Python str.strip: drops leading and trailing whitespace. -/
def strip (s : Chars) : Chars :=
  ((s.dropWhile Char.isWhitespace).reverse.dropWhile Char.isWhitespace).reverse

/-- Case-insensitive header lookup is delegated to the header map
itself: names are stored normalized. -/
def getHeader (req : Request) (name : String) : Option Chars :=
  req.headers.lookup name

/-- The inner loop of _extract_client_ip_from_headers over one header
value: split on commas, strip, skip empties, return the first
candidate the ipaddress parser accepts. -/
def extractFromValue (env : Env) (value : Chars) : Option Chars :=
  (Util.splitOnChar ',' value).findSome? (fun candidate =>
    let ip := strip candidate
    if ip = [] then none
    else
      match env.parse_ip ip with
      | none => none
      | some _ => some ip)

/-- _extract_client_ip_from_headers: walk the configured headers in
order, skip missing or empty values, and return the first
syntactically valid candidate. -/
def _extract_client_ip_from_headers (env : Env) (req : Request) : Option Chars :=
  env.ip_headers.findSome? (fun h =>
    match getHeader req h with
    | none => none
    | some v => if v = [] then none else extractFromValue env v)

/-- _remote_ip: the peer host string (None when absent or empty) and
its parsed address when it is a syntactically valid IP. -/
def _remote_ip (env : Env) (req : Request) : Option Chars × Option Nat :=
  match req.client_host with
  | none => (none, none)
  | some host =>
      if host = [] then (none, none)
      else
        match env.parse_ip host with
        | none => (some host, none)
        | some addr => (some host, some addr)

def anonymousId : Chars := "anonymous".toList

/-- default_client_identifier: prefer a forwarded IP only when the
direct peer address parses and lies in a trusted-proxy network, else
fall back to the peer host, else to the anonymous sentinel. -/
def default_client_identifier (env : Env) (req : Request) : Chars :=
  let rh := _remote_ip env req
  let viaHeaders : Option Chars :=
    match rh.snd with
    | some addr =>
        if env.trusted.any (fun n => n addr) then
          match _extract_client_ip_from_headers env req with
          | some ip => if ip ≠ [] then some ip else none
          | none => none
        else none
    | none => none
  match viaHeaders with
  | some ip => ip
  | none =>
      match rh.fst with
      | some host => if host ≠ [] then host else anonymousId
      | none => anonymousId

/-- Fixture: one forwarding header, a parser accepting two literal
addresses, and a trusted network containing only address 1. -/
def demoEnv : Env :=
  { ip_headers := ["x-forwarded-for"]
    parse_ip := fun s =>
      if s = "203.0.113.7".toList then some 7
      else if s = "10.0.0.1".toList then some 1 else none
    trusted := [fun a => a == 1] }

/-- Fixture: a request arriving from the trusted proxy with one
forwarded address. -/
def demoReq : Request :=
  { client_host := some "10.0.0.1".toList
    headers := [("x-forwarded-for", "203.0.113.7".toList)] }

/-- Modelled from the spec: the ordered candidate list drawn from the
configured forwarding headers (headers in configured order, each value
split on commas and stripped). -/
def specCandidates (env : Env) (req : Request) : List Chars :=
  env.ip_headers.flatMap (fun h =>
    match getHeader req h with
    | none => []
    | some v => if v = [] then [] else (Util.splitOnChar ',' v).map strip)

/-- Modelled from the spec: the first syntactically valid IP address
found in the configured forwarding headers, first valid value wins. -/
def specFirstValidIp (env : Env) (req : Request) : Option Chars :=
  (specCandidates env req).find? (fun ip => !ip.isEmpty && (env.parse_ip ip).isSome)

/-- Modelled from the spec: the client identifier is the first valid
forwarded IP when the direct transport address is an IP inside a
trusted-proxy range, otherwise the direct transport address, and the
anonymous sentinel when no direct address is available at all. -/
def specClientIdentifier (env : Env) (req : Request) : Chars :=
  match req.client_host with
  | none => anonymousId
  | some host =>
      if host = [] then anonymousId
      else
        match env.parse_ip host with
        | none => host
        | some addr =>
            if env.trusted.any (fun n => n addr) then
              match specFirstValidIp env req with
              | some ip => ip
              | none => host
            else host

end ClientId

namespace Images

def MAX_IMAGE_DIMENSION : Nat := 2048

def MAX_IMAGE_PIXELS : Nat := MAX_IMAGE_DIMENSION * MAX_IMAGE_DIMENSION * 12

def JPEG_CONTENT_TYPE : String := "image/jpeg"

def UPLOAD_CHUNK_SIZE : Nat := 1024 * 1024

/-- Failure conditions of read_upload_file: UploadTooLargeError and the
ValueError raised on a non-positive bound. -/
inductive UploadError
  | tooLarge
  | badMaxBytes
deriving DecidableEq, Repr

/-- Failure conditions of process_image_bytes, all ValueError in the
source: empty input, unparsable input, non-positive dimensions, and a
pixel count above the safety ceiling. -/
inductive ImgError
  | emptyFile
  | unsupported
  | invalidDims
  | tooManyPixels
deriving DecidableEq, Repr

/-- The while loop of read_upload_file: the upload stream is the byte
list still unread, and each UploadFile.read returns its next chunk of
at most chunkSize bytes. -/
def readLoop (chunkSize maxBytes : Nat) (remaining : List Nat) (total : Nat)
    (acc : List Nat) : Except UploadError (List Nat) :=
  let chunk := remaining.take chunkSize
  if h : chunk = [] then .ok acc
  else
    let total' := total + chunk.length
    if total' > maxBytes then .error .tooLarge
    else readLoop chunkSize maxBytes (remaining.drop chunkSize) total' (acc ++ chunk)
termination_by remaining.length
decreasing_by
  simp only [List.length_drop]
  have hlen : chunk.length = min chunkSize remaining.length := List.length_take ..
  have hpos : 0 < chunk.length := List.length_pos.mpr h
  omega

/-- read_upload_file: reads the upload in chunks of
min(UPLOAD_CHUNK_SIZE, max_bytes) bytes (at least one), failing with
TooLarge as soon as the cumulative size exceeds max_bytes. -/
def read_upload_file (data : List Nat) (maxBytes : Int) : Except UploadError (List Nat) :=
  if maxBytes ≤ 0 then .error .badMaxBytes
  else
    let mb := maxBytes.toNat
    let chunkSize := max 1 (min UPLOAD_CHUNK_SIZE mb)
    readLoop chunkSize mb data 0 []

/-- A decoded image as PIL exposes it to process_image_bytes: its pixel
dimensions and its EXIF orientation tag (1 when absent). -/
structure RawImage where
  width : Nat
  height : Nat
  orientation : Nat
deriving DecidableEq, Repr

/-- ImageOps.exif_transpose: physically rotates or flips the pixels to
the intended display orientation (tags 5 to 8 transpose the two
dimensions) and drops the orientation metadata. -/
def exif_transpose (img : RawImage) : RawImage :=
  if 5 ≤ img.orientation ∧ img.orientation ≤ 8 then
    { width := img.height, height := img.width, orientation := 1 }
  else
    { img with orientation := 1 }

/-- _ensure_safe_pixel_count: rejects non-positive dimensions and a
width times height above MAX_IMAGE_PIXELS. -/
def _ensure_safe_pixel_count (width height : Nat) : Except ImgError Unit :=
  if width = 0 ∨ height = 0 then .error .invalidDims
  else if width * height > MAX_IMAGE_PIXELS then .error .tooManyPixels
  else .ok ()

/-- The scaled dimensions computed by process_image_bytes: scale is
min(MAX/width, MAX/height, 1.0) and a strict downscale truncates each
scaled dimension, never below one pixel. -/
def resizedDims (width height : Nat) : Nat × Nat :=
  let scale : ℚ :=
    min ((MAX_IMAGE_DIMENSION : ℚ) / width) (min ((MAX_IMAGE_DIMENSION : ℚ) / height) 1)
  if scale < 1 then
    (max 1 (Int.toNat ⌊(width : ℚ) * scale⌋), max 1 (Int.toNat ⌊(height : ℚ) * scale⌋))
  else (width, height)

/-- The re-encoded output of the pipeline: final dimensions and the
save parameters of image.save (fixed JPEG format, quality 85, no
metadata carried over). -/
structure ProcessedImage where
  width : Nat
  height : Nat
  format : String
  quality : Nat
  hasExif : Bool
deriving DecidableEq, Repr

/-- The tail of process_image_bytes after orientation normalization:
the second pixel-ceiling check, the downscale, the RGB conversion and
the fixed-format re-encode with metadata stripped. -/
def processOriented (img1 : RawImage) : Except ImgError (ProcessedImage × String) :=
  match _ensure_safe_pixel_count img1.width img1.height with
  | .error e => .error e
  | .ok _ =>
      .ok (⟨(resizedDims img1.width img1.height).fst, (resizedDims img1.width img1.height).snd,
        "JPEG", 85, false⟩, JPEG_CONTENT_TYPE)

/-- The body of process_image_bytes after a successful decode: the
pixel ceiling is checked both before and after the orientation
normalization. -/
def processDecoded (img0 : RawImage) : Except ImgError (ProcessedImage × String) :=
  match _ensure_safe_pixel_count img0.width img0.height with
  | .error e => .error e
  | .ok _ => processOriented (exif_transpose img0)

/-- process_image_bytes, with PIL Image.open abstracted into a decode
function (None on unparsable bytes): empty-input check, decode, then
the checked normalize-downscale-re-encode pipeline. -/
def process_image_bytes (decode : List Nat → Option RawImage) (data : List Nat) :
    Except ImgError (ProcessedImage × String) :=
  if data = [] then .error .emptyFile
  else
    match decode data with
    | none => .error .unsupported
    | some img0 => processDecoded img0

/-- Fixture: a decoder that parses the byte string 1 as a 4000 by 3000
image, the byte string 2 as an 8000 by 8000 image, and nothing else. -/
def demoDecode : List Nat → Option RawImage
  | [1] => some ⟨4000, 3000, 1⟩
  | [2] => some ⟨8000, 8000, 1⟩
  | _ => none

end Images

namespace Security

/-- Passwords, salts, digests and stored hash strings are modelled as
character lists. -/
abbrev Chars := List Char

def argonVariant : Chars := "argon2id".toList

/-- A structurally valid stored hash: variant identifier, per-call
salt, and the Argon2 digest of (salt, password). -/
structure Argon2Hash where
  variant : Chars
  salt : Chars
  digest : Chars
deriving DecidableEq, Repr

/-- The serialized form of a stored hash, with dollar-separated fields
as in the argon2 encoded format. -/
def encodeHash (h : Argon2Hash) : Chars :=
  h.variant ++ ('$' :: (h.salt ++ ('$' :: h.digest)))

/-- Parsing a stored hash string back into its fields; None models the
InvalidHash condition of the argon2 library. -/
def parseHash (s : Chars) : Option Argon2Hash :=
  match Util.splitOnChar '$' s with
  | [v, sa, d] => if v = argonVariant then some ⟨v, sa, d⟩ else none
  | _ => none

/-- hash_password over the PasswordHasher library contract: digestF is
the Argon2 key-derivation function (abstract parameter of the model)
applied to the random per-call salt, and an empty password raises
ValueError. -/
def hash_password (digestF : Chars → Chars → Chars) (salt password : Chars) :
    Except Unit Chars :=
  if password = [] then .error ()
  else .ok (encodeHash ⟨argonVariant, salt, digestF salt password⟩)

/-- verify_password: recomputes the digest under the stored salt and
compares; VerifyMismatchError and InvalidHash both yield False, so the
function is total and never raises. -/
def verify_password (digestF : Chars → Chars → Chars) (password stored : Chars) : Bool :=
  match parseHash stored with
  | none => false
  | some h => digestF h.salt password == h.digest

end Security

namespace Auth

inductive TokType
  | access
  | refresh
deriving DecidableEq, Repr

def TokType.code : TokType → Nat
  | .access => 0
  | .refresh => 1

/-- The claims of a signed JWT issued by core/security.py: subject,
token kind, issued-at, expiry, and random per-token identifier.  All
tokens of the model are well-signed; forged strings never decode. -/
structure Token where
  sub : Nat
  typ : TokType
  iat : Nat
  exp : Nat
  jti : Nat
deriving DecidableEq, Repr

def access_token_expire_minutes : Nat := 15

def refresh_token_expire_minutes : Nat := 60 * 24 * 7

/-- _create_token of core/security.py, with the wall clock and the
random jti passed explicitly; times are Unix seconds. -/
def _create_token (subject : Nat) (ttlSecs : Nat) (typ : TokType) (now jti : Nat) : Token :=
  { sub := subject, typ := typ, iat := now, exp := now + ttlSecs, jti := jti }

def create_access_token (subject now jti : Nat) : Token :=
  _create_token subject (access_token_expire_minutes * 60) .access now jti

def create_refresh_token (subject now jti : Nat) : Token :=
  _create_token subject (refresh_token_expire_minutes * 60) .refresh now jti

/-- jose jwt.decode: signature validation (trivial here, all modelled
tokens are well-signed) plus standard expiry enforcement at decode
time. -/
def decode_token (now : Nat) (t : Token) : Option Token :=
  if t.exp ≤ now then none else some t

/-- _hash_refresh_token: the SHA-256 hex digest of the serialized
token, modelled as a collision-free encoding of the claims into a
natural number. -/
def _hash_refresh_token (t : Token) : Nat :=
  Nat.pair t.sub (Nat.pair t.typ.code (Nat.pair t.iat (Nat.pair t.exp t.jti)))

/-- One row of the refresh_tokens table. -/
structure TokenRecord where
  user_id : Nat
  token_hash : Nat
  issued_at : Nat
  expires_at : Nat
  revoked_at : Option Nat
deriving DecidableEq, Repr

/-- The database state relevant to the auth endpoints: the refresh
token rows in insertion order. -/
structure AuthState where
  tokens : List TokenRecord
deriving DecidableEq, Repr

def AuthState.empty : AuthState := ⟨[]⟩

/-- The row found by selecting on token_hash (unique in every state
the application produces). -/
def AuthState.find (st : AuthState) (k : Nat) : Option TokenRecord :=
  st.tokens.find? (fun r => r.token_hash == k)

/-- _store_refresh_token: decodes the freshly issued token and appends
a row with issued-at and expires-at taken from the token claims and no
revocation mark. -/
def _store_refresh_token (st : AuthState) (user_id : Nat) (t : Token) : AuthState :=
  ⟨st.tokens ++
    [{ user_id := user_id, token_hash := _hash_refresh_token t,
       issued_at := t.iat, expires_at := t.exp, revoked_at := none }]⟩

/-- Setting revoked_at on the stored row holding a given token hash;
the guard mirrors the code paths, which only stamp a row that is not
yet revoked. -/
def AuthState.revoke (st : AuthState) (k now : Nat) : AuthState :=
  ⟨st.tokens.map (fun r =>
    if r.token_hash == k && r.revoked_at == none then { r with revoked_at := some now }
    else r)⟩

/-- The success path of POST /auth/login for an authenticated user:
issue a refresh token, store its row, commit.  The access token and
the cookies do not touch the database, and no pruning of older rows
takes place anywhere in the handler. -/
def login (uid now jtiR : Nat) (st : AuthState) : Token × AuthState :=
  let refreshTok := create_refresh_token uid now jtiR
  (refreshTok, _store_refresh_token st uid refreshTok)

inductive AuthErr
  | unauthorized
deriving DecidableEq, Repr

/-- _get_refresh_token: look the presented token up by hash and fail
with 401 when it is missing, already revoked, or past expiry. -/
def _get_refresh_token (st : AuthState) (now : Nat) (t : Token) :
    Except AuthErr TokenRecord :=
  match st.find (_hash_refresh_token t) with
  | none => .error .unauthorized
  | some row =>
      if row.revoked_at ≠ none then .error .unauthorized
      else if row.expires_at ≤ now then .error .unauthorized
      else .ok row

/-- refresh_tokens (POST /auth/refresh): missing cookie, failed
decode, wrong kind, and every _get_refresh_token failure give 401; on
success the presented row is stamped revoked and the rotated token is
stored in the same unit of work. -/
def refresh_tokens (now jtiR : Nat) (cookie : Option Token) (st : AuthState) :
    Except AuthErr (Token × AuthState) :=
  match cookie with
  | none => .error .unauthorized
  | some t =>
      match decode_token now t with
      | none => .error .unauthorized
      | some payload =>
          if payload.typ ≠ TokType.refresh then .error .unauthorized
          else
            match _get_refresh_token st now t with
            | .error e => .error e
            | .ok _ =>
                let st1 := st.revoke (_hash_refresh_token t) now
                let newTok := create_refresh_token payload.sub now jtiR
                .ok (newTok, _store_refresh_token st1 payload.sub newTok)

/-- logout (POST /auth/logout): when a refresh cookie is present and
its row exists and is not yet revoked, stamp it; always a no-op on the
rows otherwise. -/
def logout (now : Nat) (cookie : Option Token) (st : AuthState) : AuthState :=
  match cookie with
  | none => st
  | some t =>
      match st.find (_hash_refresh_token t) with
      | some row =>
          if row.revoked_at = none then st.revoke (_hash_refresh_token t) now else st
      | none => st

/-- One database transition of the auth endpoints: a successful login,
a successful refresh, or a logout. -/
inductive Step : AuthState → AuthState → Prop
  | loginStep (uid now jtiR : Nat) (st : AuthState) : Step st (login uid now jtiR st).snd
  | refreshStep {now jtiR : Nat} {t newTok : Token} {st st' : AuthState} :
      refresh_tokens now jtiR (some t) st = .ok (newTok, st') → Step st st'
  | logoutStep (now : Nat) (cookie : Option Token) (st : AuthState) :
      Step st (logout now cookie st)

/-- The number of non-revoked, non-expired refresh-token rows a user
holds at a given instant. -/
def activeTokens (st : AuthState) (uid now : Nat) : Nat :=
  (st.tokens.filter (fun r =>
    r.user_id == uid && r.revoked_at == none && decide (now < r.expires_at))).length

/-- K successive logins for one user, at consecutive instants and with
distinct token identifiers. -/
def loginsFrom (uid : Nat) (k : Nat) (st : AuthState) : AuthState :=
  match k with
  | 0 => st
  | n + 1 => (login uid n n (loginsFrom uid n st)).snd


/-- Fixture: a refresh token issued to user 1 at t = 0. -/
def demoToken : Token := create_refresh_token 1 0 42

/-- Fixture: the state after user 1 logs in once. -/
def demoAuthStart : AuthState := _store_refresh_token AuthState.empty 1 demoToken

/-- Fixture: the state committed by a successful refresh of the demo
token at t = 10 rotating to a fresh token. -/
def demoAuthAfter : AuthState :=
  _store_refresh_token (demoAuthStart.revoke (_hash_refresh_token demoToken) 10) 1
    (create_refresh_token 1 10 43)

end Auth

namespace FeedSvc

/-- One row of the users table (the columns the feed query touches). -/
structure UserRec where
  id : Nat
  name : Option String
deriving DecidableEq, Repr

/-- One row of the follows table. -/
structure FollowRec where
  follower_id : Nat
  followee_id : Nat
deriving DecidableEq, Repr

/-- One row of the posts table (the columns the feed query touches). -/
structure PostRec where
  id : Nat
  author_id : Nat
  created_at : Nat
deriving DecidableEq, Repr

/-- The database state relevant to the feed and post endpoints. -/
structure DB where
  users : List UserRec
  follows : List FollowRec
  posts : List PostRec
deriving DecidableEq, Repr

/-- The join of home_feed before ordering: select(Post, User.name)
joined to users on the author id and to follows on followee = author,
filtered to follower = viewer. -/
def joinRows (db : DB) (viewer : Nat) : List (PostRec × Option String) :=
  db.posts.flatMap (fun p =>
    (db.users.filter (fun u => u.id == p.author_id)).flatMap (fun u =>
      (db.follows.filter (fun f =>
        f.followee_id == p.author_id && f.follower_id == viewer)).map
        (fun _ => (p, u.name))))

/-- The ORDER BY of home_feed: newest creation time first. -/
def newerFirst (a b : PostRec × Option String) : Prop :=
  b.fst.created_at ≤ a.fst.created_at

instance : DecidableRel newerFirst :=
  fun a b => inferInstanceAs (Decidable (b.fst.created_at ≤ a.fst.created_at))

instance : IsTotal (PostRec × Option String) newerFirst :=
  ⟨fun a b => Nat.le_total b.fst.created_at a.fst.created_at⟩

instance : IsTrans (PostRec × Option String) newerFirst :=
  ⟨fun _ _ _ hab hbc => Nat.le_trans hbc hab⟩

/-- The rows produced by the select statement the home_feed handler
executes: the joined rows ordered by creation time descending.  This
is the query of feed.py lines 34 to 40, the part of the handler that
runs before the like-decoration step. -/
def feedQueryRows (viewer : Nat) (db : DB) : List (PostRec × Option String) :=
  List.insertionSort newerFirst (joinRows db viewer)

/-- Failure of the home_feed handler after its select has run. -/
inductive FeedError
  | missingCollectLikeMeta
deriving DecidableEq, Repr

/-- The collect_like_meta step of home_feed: feed.py imports this name
from posts.py, but posts.py does not define it, so resolving the name
raises and the call can never return; even its call site passes
like_count and viewer_has_liked keyword arguments that
PostResponse.from_post does not accept. -/
def collect_like_meta (rows : List (PostRec × Option String)) :
    Except FeedError (List (PostRec × Option String)) :=
  .error .missingCollectLikeMeta

/-- home_feed (GET /feed/home) for a viewer: the handler runs the
join-and-order select and then feeds the rows through the
like-decoration step, which always raises because collect_like_meta is
absent from posts.py; the request therefore never returns the feed. -/
def home_feed (viewer : Nat) (db : DB) :
    Except FeedError (List (PostRec × Option String)) :=
  collect_like_meta (feedQueryRows viewer db)

/-- Modelled from the spec: the posts whose author is a user the
viewer follows. -/
def specFollowedPosts (viewer : Nat) (db : DB) : List PostRec :=
  db.posts.filter (fun p =>
    db.users.any (fun u => u.id == p.author_id) &&
    db.follows.any (fun f => f.followee_id == p.author_id && f.follower_id == viewer))


/-- Fixture: viewer 1 follows author 2; author 2 has posts at t = 5
and t = 7, the viewer has an own post at t = 3. -/
def demoDB : DB :=
  { users := [⟨1, some "Viewer"⟩, ⟨2, some "Author"⟩]
    follows := [⟨1, 2⟩]
    posts := [⟨10, 2, 5⟩, ⟨11, 1, 3⟩, ⟨12, 2, 7⟩] }

end FeedSvc

namespace Posts

open FeedSvc

/-- _user_can_view_post: the viewer is the author or follows the
author. -/
def _user_can_view_post (db : DB) (viewer author : Nat) : Bool :=
  viewer == author ||
    db.follows.any (fun f => f.follower_id == viewer && f.followee_id == author)

/-- The single row fetched by get_post: the post with the requested id
joined to its author row, limit 1. -/
def postRow (db : DB) (post_id : Nat) : Option (PostRec × Option String) :=
  ((db.posts.filter (fun p => p.id == post_id)).flatMap (fun p =>
    (db.users.filter (fun u => u.id == p.author_id)).map (fun u => (p, u.name)))).head?

/-- get_post (GET /posts/id), with HTTP status codes as the error
type: a missing row and a visibility failure both surface as 404. -/
def get_post (db : DB) (viewer post_id : Nat) : Except Nat (PostRec × Option String) :=
  match postRow db post_id with
  | none => .error 404
  | some row =>
      if _user_can_view_post db viewer row.fst.author_id then .ok row
      else .error 404

end Posts

/-! ## Theorems -/

namespace RateLimit

theorem lookup_setAssoc (l : List (String × Nat)) (k : String) (v : Nat) :
    (setAssoc l k v).lookup k = some v := by
  induction l with
  | nil => simp [setAssoc, List.lookup]
  | cons kv rest ih =>
      obtain ⟨k', v'⟩ := kv
      by_cases hk : k' = k
      · subst hk
        simp [setAssoc, List.lookup]
      · simp only [setAssoc, if_neg hk, List.lookup]
        have : (k == k') = false := by
          exact beq_eq_false_iff_ne.mpr (Ne.symm hk)
        simp [this, ih]

/-- C4: with limit 2 and window 60 the first two calls for one key are
allowed and the third refused within the same window; at t = 60 the
window has elapsed and the key is allowed again; a zero configured
limit always allows; and in the limiting case allow increments the
shared counter of the current window, installs the window-length
expiry exactly on the first increment of the window, and returns
whether the post-increment count is within the configured limit. -/
theorem C4_fixed_window_allow :
    ((demoLimiter.allow 0 "client" RedisState.empty).fst = true ∧
      (demoLimiter.allow 0 "client" demoS1).fst = true ∧
      (demoLimiter.allow 0 "client" demoS2).fst = false ∧
      (demoLimiter.allow 60 "client" demoS3).fst = true) ∧
    (∀ (w : Int) (p : String) (now : Nat) (key : String) (st : RedisState),
      (RateLimiter.init 0 w p).allow now key st = (true, st)) ∧
    (∀ (rl : RateLimiter) (now : Nat) (key : String) (st : RedisState),
      rl.limit ≠ 0 → rl.window_seconds ≠ 0 →
      rl.allow now key st =
        (decide
            ((st.counters.lookup (redisKeyFor rl key (now / rl.window_seconds))).getD 0 + 1 ≤
              rl.limit),
          { counters :=
              setAssoc st.counters (redisKeyFor rl key (now / rl.window_seconds))
                ((st.counters.lookup (redisKeyFor rl key (now / rl.window_seconds))).getD 0 + 1)
            expiries :=
              if (st.counters.lookup (redisKeyFor rl key (now / rl.window_seconds))).getD 0 + 1 = 1
              then setAssoc st.expiries (redisKeyFor rl key (now / rl.window_seconds))
                rl.window_seconds
              else st.expiries })) := by
  refine ⟨by decide, ?_, ?_⟩
  · intro w p now key st
    simp [RateLimiter.init, RateLimiter.allow]
  · intro rl now key st h1 h2
    simp only [RateLimiter.allow, RedisState.incr, RedisState.expire, if_neg (by tauto :
      ¬(rl.limit = 0 ∨ rl.window_seconds = 0))]
    split
    · rename_i hone
      simp_all
    · rename_i hone
      simp_all

/-- Witness for C4: the third conjunct applied to the limit-2 limiter
at t = 0 on the empty store. -/
theorem C4_fixed_window_allow_witness :
    demoLimiter.allow 0 "client" RedisState.empty =
      (true, ⟨[("rate-limit:client:0", 1)], [("rate-limit:client:0", 60)]⟩) := by
  have h := C4_fixed_window_allow.2.2 demoLimiter 0 "client" RedisState.empty
    (by decide) (by decide)
  exact h.trans (by decide)

/-- C10: a negative configured limit or window is clamped to zero by
the constructor, and the resulting limiter allows unconditionally,
exactly as a limiter configured with explicit zeros. -/
theorem C10_negative_config_disables (l w : Int) (p : String) (h : l < 0 ∨ w < 0) :
    (l < 0 → (RateLimiter.init l w p).limit = 0) ∧
    (w < 0 → (RateLimiter.init l w p).window_seconds = 0) ∧
    (∀ (now : Nat) (key : String) (st : RedisState),
      (RateLimiter.init l w p).allow now key st = (true, st)) ∧
    (∀ (now : Nat) (key : String) (st : RedisState),
      (RateLimiter.init l w p).allow now key st = (RateLimiter.init 0 0 p).allow now key st) := by
  have hl : l < 0 → (RateLimiter.init l w p).limit = 0 := by
    intro hneg
    simp [RateLimiter.init, Int.toNat_eq_zero, le_of_lt, max_eq_right (le_of_lt hneg)]
  have hw : w < 0 → (RateLimiter.init l w p).window_seconds = 0 := by
    intro hneg
    simp [RateLimiter.init, Int.toNat_eq_zero, max_eq_right (le_of_lt hneg)]
  have hallow : ∀ (now : Nat) (key : String) (st : RedisState),
      (RateLimiter.init l w p).allow now key st = (true, st) := by
    intro now key st
    rcases h with hneg | hneg
    · simp [RateLimiter.allow, hl hneg]
    · simp [RateLimiter.allow, hw hneg]
  refine ⟨hl, hw, hallow, fun now key st => ?_⟩
  rw [hallow now key st]
  simp [RateLimiter.allow, RateLimiter.init]

/-- Witness for C10: a limiter built with limit -1 and window 60. -/
theorem C10_negative_config_disables_witness :
    ((-1 : Int) < 0 → (RateLimiter.init (-1) 60 "rate-limit").limit = 0) ∧
    ((60 : Int) < 0 → (RateLimiter.init (-1) 60 "rate-limit").window_seconds = 0) ∧
    (∀ (now : Nat) (key : String) (st : RedisState),
      (RateLimiter.init (-1) 60 "rate-limit").allow now key st = (true, st)) ∧
    (∀ (now : Nat) (key : String) (st : RedisState),
      (RateLimiter.init (-1) 60 "rate-limit").allow now key st =
        (RateLimiter.init 0 0 "rate-limit").allow now key st) :=
  C10_negative_config_disables (-1) 60 "rate-limit" (Or.inl (by decide))

end RateLimit

namespace Auth

/-- C1: the login handler commits the new refresh-token row without
any pruning, so after six logins with the documented cap of five a
user holds six active rows; the active-token invariant the spec states
(and the repository's own tests assert via MAX_ACTIVE_REFRESH_TOKENS)
fails on the code. -/
theorem C1_login_never_prunes :
    activeTokens (loginsFrom 1 6 AuthState.empty) 1 5 = 6 ∧
    ¬ activeTokens (loginsFrom 1 6 AuthState.empty) 1 5 ≤ 5 := by
  decide

end Auth

namespace Images

theorem readLoop_spec (chunkSize maxBytes : Nat) (hcs : 0 < chunkSize)
    (remaining : List Nat) (total : Nat) (acc : List Nat) (htot : total ≤ maxBytes) :
    readLoop chunkSize maxBytes remaining total acc =
      if total + remaining.length ≤ maxBytes then .ok (acc ++ remaining)
      else .error .tooLarge := by
  rw [readLoop]
  by_cases hnil : remaining.take chunkSize = []
  · rw [dif_pos hnil]
    have hrem : remaining = [] := by
      rcases List.take_eq_nil_iff.mp hnil with h | h
      · omega
      · exact h
    subst hrem
    simp [htot]
  · rw [dif_neg hnil]
    have hlen : (remaining.take chunkSize).length = min chunkSize remaining.length :=
      List.length_take ..
    have hpos : 0 < (remaining.take chunkSize).length := List.length_pos.mpr hnil
    by_cases hover : total + (remaining.take chunkSize).length > maxBytes
    · rw [if_pos hover]
      rw [if_neg (by omega)]
    · rw [if_neg hover]
      rw [readLoop_spec chunkSize maxBytes hcs (remaining.drop chunkSize)
        (total + (remaining.take chunkSize).length) (acc ++ remaining.take chunkSize)
        (by omega)]
      have hsum : total + (remaining.take chunkSize).length +
          (remaining.drop chunkSize).length = total + remaining.length := by
        simp only [List.length_drop]
        omega
      have happ : acc ++ remaining.take chunkSize ++ remaining.drop chunkSize =
          acc ++ remaining := by
        rw [List.append_assoc, List.take_append_drop]
      rw [hsum, happ]
termination_by remaining.length
decreasing_by
  simp only [List.length_drop]
  omega

/-- C7: with a 100-byte bound the reader fails with TooLarge on a
101-byte stream, succeeds returning all bytes of a 100-byte stream,
and in general succeeds exactly when the stream fits the bound,
failing as soon as the cumulative chunked read exceeds it. -/
theorem C7_read_bounded :
    read_upload_file (List.replicate 101 7) 100 = .error .tooLarge ∧
    read_upload_file (List.replicate 100 7) 100 = .ok (List.replicate 100 7) ∧
    (∀ bs : List Nat, bs.length ≤ 100 → read_upload_file bs 100 = .ok bs) ∧
    (∀ bs : List Nat, 100 < bs.length → read_upload_file bs 100 = .error .tooLarge) := by
  have hgen : ∀ bs : List Nat, read_upload_file bs 100 =
      if bs.length ≤ 100 then .ok bs else .error .tooLarge := by
    intro bs
    unfold read_upload_file
    rw [if_neg (by norm_num)]
    have h := readLoop_spec (max 1 (min UPLOAD_CHUNK_SIZE (Int.toNat 100))) (Int.toNat 100)
      (by norm_num [UPLOAD_CHUNK_SIZE]) bs 0 [] (by norm_num)
    simpa using h
  refine ⟨?_, ?_, fun bs h => by rw [hgen]; simp [h], fun bs h => by
    rw [hgen]; simp [Nat.not_le.mpr h]⟩
  · rw [hgen]; simp
  · rw [hgen]; simp

/-- Witness for C7: a 50-byte stream fits a 100-byte bound. -/
theorem C7_read_bounded_witness :
    read_upload_file (List.replicate 50 7) 100 = .ok (List.replicate 50 7) :=
  C7_read_bounded.2.2.1 (List.replicate 50 7) (by simp)

theorem resizedDims_le_max (w h : Nat) (hw : 0 < w) (hh : 0 < h) :
    (resizedDims w h).fst ≤ MAX_IMAGE_DIMENSION ∧
      (resizedDims w h).snd ≤ MAX_IMAGE_DIMENSION := by
  have hwQ : (0 : ℚ) < (w : ℚ) := by exact_mod_cast hw
  have hhQ : (0 : ℚ) < (h : ℚ) := by exact_mod_cast hh
  unfold resizedDims
  set s : ℚ := min ((MAX_IMAGE_DIMENSION : ℚ) / w) (min ((MAX_IMAGE_DIMENSION : ℚ) / h) 1)
    with hsdef
  have hbound : ∀ (d : Nat), 0 < d → s ≤ (MAX_IMAGE_DIMENSION : ℚ) / d →
      max 1 (Int.toNat ⌊(d : ℚ) * s⌋) ≤ MAX_IMAGE_DIMENSION := by
    intro d hd hsle
    have hdQ : (0 : ℚ) < (d : ℚ) := by exact_mod_cast hd
    have h1 : (d : ℚ) * s ≤ (MAX_IMAGE_DIMENSION : ℚ) := by
      calc (d : ℚ) * s ≤ (d : ℚ) * ((MAX_IMAGE_DIMENSION : ℚ) / d) :=
            mul_le_mul_of_nonneg_left hsle (le_of_lt hdQ)
        _ = (MAX_IMAGE_DIMENSION : ℚ) := by field_simp
    have h2 : ⌊(d : ℚ) * s⌋ ≤ (MAX_IMAGE_DIMENSION : ℤ) := by
      calc ⌊(d : ℚ) * s⌋ ≤ ⌊(MAX_IMAGE_DIMENSION : ℚ)⌋ := Int.floor_le_floor h1
        _ = (MAX_IMAGE_DIMENSION : ℤ) := Int.floor_natCast _
    have h3 : (Int.toNat ⌊(d : ℚ) * s⌋) ≤ MAX_IMAGE_DIMENSION := Int.toNat_le.mpr h2
    have h4 : (1 : Nat) ≤ MAX_IMAGE_DIMENSION := by norm_num [MAX_IMAGE_DIMENSION]
    exact max_le h4 h3
  dsimp only
  by_cases hlt : s < 1
  · rw [if_pos hlt]
    constructor
    · exact hbound w hw (min_le_left _ _)
    · exact hbound h hh (le_trans (min_le_right _ _) (min_le_left _ _))
  · rw [if_neg hlt]
    push_neg at hlt
    rw [hsdef, le_min_iff, le_min_iff] at hlt
    obtain ⟨hge1, hge2, -⟩ := hlt
    constructor
    · have : (w : ℚ) ≤ (MAX_IMAGE_DIMENSION : ℚ) := (one_le_div hwQ).mp hge1
      exact_mod_cast this
    · have : (h : ℚ) ≤ (MAX_IMAGE_DIMENSION : ℚ) := (one_le_div hhQ).mp hge2
      exact_mod_cast this

theorem process_image_bytes_decoded (decode : List Nat → Option RawImage)
    (data : List Nat) (img0 : RawImage) (hdata : data ≠ [])
    (hdec : decode data = some img0) :
    process_image_bytes decode data = processDecoded img0 := by
  unfold process_image_bytes
  rw [if_neg hdata, hdec]

theorem processDecoded_error {img0 : RawImage} {e : ImgError}
    (h : _ensure_safe_pixel_count img0.width img0.height = .error e) :
    processDecoded img0 = .error e := by
  unfold processDecoded
  rw [h]

theorem processDecoded_ok {img0 : RawImage}
    (h : _ensure_safe_pixel_count img0.width img0.height = .ok ()) :
    processDecoded img0 = processOriented (exif_transpose img0) := by
  unfold processDecoded
  rw [h]

theorem processOriented_ok {img1 : RawImage}
    (h : _ensure_safe_pixel_count img1.width img1.height = .ok ()) :
    processOriented img1 =
      .ok (⟨(resizedDims img1.width img1.height).fst, (resizedDims img1.width img1.height).snd,
        "JPEG", 85, false⟩, JPEG_CONTENT_TYPE) := by
  unfold processOriented
  rw [h]

/-- C6: a parsable 4000 by 3000 image is processed into JPEG output
within the maximum dimension on both sides with no metadata; an 8000
by 8000 image trips the pixel-count safety ceiling; empty bytes and
unparsable bytes fail. -/
theorem C6_process_image (decode : List Nat → Option RawImage) :
    (∀ (data : List Nat) (o : Nat), data ≠ [] →
      decode data = some ⟨4000, 3000, o⟩ →
      ∃ out : ProcessedImage,
        process_image_bytes decode data = .ok (out, JPEG_CONTENT_TYPE) ∧
        out.width ≤ MAX_IMAGE_DIMENSION ∧ out.height ≤ MAX_IMAGE_DIMENSION ∧
        out.format = "JPEG" ∧ out.quality = 85 ∧ out.hasExif = false) ∧
    (∀ (data : List Nat) (o : Nat), data ≠ [] →
      decode data = some ⟨8000, 8000, o⟩ →
      process_image_bytes decode data = .error .tooManyPixels) ∧
    process_image_bytes decode [] = .error .emptyFile ∧
    (∀ data : List Nat, data ≠ [] → decode data = none →
      process_image_bytes decode data = .error .unsupported) := by
  have hchk43 : _ensure_safe_pixel_count 4000 3000 = .ok () := by
    norm_num [_ensure_safe_pixel_count, MAX_IMAGE_PIXELS, MAX_IMAGE_DIMENSION]
  have hchk34 : _ensure_safe_pixel_count 3000 4000 = .ok () := by
    norm_num [_ensure_safe_pixel_count, MAX_IMAGE_PIXELS, MAX_IMAGE_DIMENSION]
  have hchk88 : _ensure_safe_pixel_count 8000 8000 = .error .tooManyPixels := by
    norm_num [_ensure_safe_pixel_count, MAX_IMAGE_PIXELS, MAX_IMAGE_DIMENSION]
  refine ⟨?_, ?_, by simp [process_image_bytes], ?_⟩
  · intro data o hdata hdec
    rw [process_image_bytes_decoded decode data _ hdata hdec]
    by_cases ho : (5 : Nat) ≤ o ∧ o ≤ 8
    · have hex : exif_transpose ⟨4000, 3000, o⟩ = ⟨3000, 4000, 1⟩ := by
        simp [exif_transpose, ho]
      rw [processDecoded_ok hchk43, hex, processOriented_ok hchk34]
      exact ⟨⟨(resizedDims 3000 4000).fst, (resizedDims 3000 4000).snd, "JPEG", 85, false⟩,
        rfl, (resizedDims_le_max 3000 4000 (by norm_num) (by norm_num)).1,
        (resizedDims_le_max 3000 4000 (by norm_num) (by norm_num)).2, rfl, rfl, rfl⟩
    · have hex : exif_transpose ⟨4000, 3000, o⟩ = ⟨4000, 3000, 1⟩ := by
        simp [exif_transpose, ho]
      rw [processDecoded_ok hchk43, hex, processOriented_ok hchk43]
      exact ⟨⟨(resizedDims 4000 3000).fst, (resizedDims 4000 3000).snd, "JPEG", 85, false⟩,
        rfl, (resizedDims_le_max 4000 3000 (by norm_num) (by norm_num)).1,
        (resizedDims_le_max 4000 3000 (by norm_num) (by norm_num)).2, rfl, rfl, rfl⟩
  · intro data o hdata hdec
    rw [process_image_bytes_decoded decode data _ hdata hdec]
    exact processDecoded_error hchk88
  · intro data hdata hdec
    unfold process_image_bytes
    rw [if_neg hdata, hdec]

end Images

namespace Images

/-- Witness for C6: the 4000 by 3000 conjunct at the fixture decoder. -/
theorem C6_process_image_witness :
    ∃ out : ProcessedImage,
      process_image_bytes demoDecode [1] = .ok (out, JPEG_CONTENT_TYPE) ∧
      out.width ≤ MAX_IMAGE_DIMENSION ∧ out.height ≤ MAX_IMAGE_DIMENSION ∧
      out.format = "JPEG" ∧ out.quality = 85 ∧ out.hasExif = false :=
  (C6_process_image demoDecode).1 [1] 1 (by decide) rfl

end Images

namespace Util

theorem splitOnChar_cons (sep c : Char) (s : List Char) :
    splitOnChar sep (c :: s) =
      match splitOnChar sep s with
      | [] => [[c]]
      | cur :: rest => if c = sep then [] :: cur :: rest else (c :: cur) :: rest := rfl

theorem splitOnChar_ne_nil (sep : Char) (s : List Char) : splitOnChar sep s ≠ [] := by
  induction s with
  | nil => simp [splitOnChar]
  | cons c s ih =>
      rw [splitOnChar_cons]
      cases h : splitOnChar sep s with
      | nil => simp
      | cons cur rest => by_cases hc : c = sep <;> simp [hc]

theorem splitOnChar_sep_cons (sep : Char) (s : List Char) :
    splitOnChar sep (sep :: s) = [] :: splitOnChar sep s := by
  rw [splitOnChar_cons]
  cases h : splitOnChar sep s with
  | nil => exact absurd h (splitOnChar_ne_nil sep s)
  | cons cur rest => simp

theorem splitOnChar_append_no_sep (sep : Char) (a : List Char) (ha : sep ∉ a)
    (s : List Char) (hd : List Char) (tl : List (List Char))
    (hs : splitOnChar sep s = hd :: tl) :
    splitOnChar sep (a ++ s) = (a ++ hd) :: tl := by
  induction a with
  | nil => simpa using hs
  | cons c a ih =>
      have hc : c ≠ sep := fun h => ha (h ▸ List.mem_cons_self c a)
      have ha' : sep ∉ a := fun h => ha (List.mem_cons_of_mem c h)
      rw [List.cons_append, splitOnChar_cons, ih ha']
      simp [hc]

theorem splitOnChar_encode (sep : Char) (a b c : List Char)
    (ha : sep ∉ a) (hb : sep ∉ b) (hc : sep ∉ c) :
    splitOnChar sep (a ++ (sep :: (b ++ (sep :: c)))) = [a, b, c] := by
  have h1 : splitOnChar sep c = [c] := by
    have h := splitOnChar_append_no_sep sep c hc [] [] [] (by simp [splitOnChar])
    simpa using h
  have h2 : splitOnChar sep (sep :: c) = [[], c] := by
    rw [splitOnChar_sep_cons, h1]
  have h3 : splitOnChar sep (b ++ (sep :: c)) = [b, c] := by
    have h := splitOnChar_append_no_sep sep b hb (sep :: c) [] [c] h2
    simpa using h
  have h4 : splitOnChar sep (sep :: (b ++ (sep :: c))) = [[], b, c] := by
    rw [splitOnChar_sep_cons, h3]
  have h5 := splitOnChar_append_no_sep sep a ha (sep :: (b ++ (sep :: c))) [] [b, c] h4
  simpa using h5

end Util

namespace Security

theorem parseHash_encodeHash (salt digest : Chars) (hs : '$' ∉ salt) (hd : '$' ∉ digest) :
    parseHash (encodeHash ⟨argonVariant, salt, digest⟩) = some ⟨argonVariant, salt, digest⟩ := by
  unfold parseHash encodeHash
  rw [Util.splitOnChar_encode '$' argonVariant salt digest (by decide) hs hd]
  simp

/-- C8: hashing a non-empty password yields a stored string that
verifies against the same password; any other password whose Argon2
digest differs (the library contract for distinct inputs) fails
verification; and verify is a total Boolean function returning false
on every string the hash parser rejects. -/
theorem C8_password_roundtrip (digestF : Chars → Chars → Chars) (salt p : Chars)
    (hp : p ≠ []) (hsalt : '$' ∉ salt) (hdig : '$' ∉ digestF salt p) :
    hash_password digestF salt p = .ok (encodeHash ⟨argonVariant, salt, digestF salt p⟩) ∧
    verify_password digestF p (encodeHash ⟨argonVariant, salt, digestF salt p⟩) = true ∧
    (∀ w : Chars, w ≠ p → digestF salt w ≠ digestF salt p →
      verify_password digestF w (encodeHash ⟨argonVariant, salt, digestF salt p⟩) = false) ∧
    (∀ (w s : Chars), parseHash s = none → verify_password digestF w s = false) := by
  refine ⟨by simp [hash_password, hp], ?_, ?_, ?_⟩
  · unfold verify_password
    rw [parseHash_encodeHash salt _ hsalt hdig]
    simp
  · intro w hw hcol
    unfold verify_password
    rw [parseHash_encodeHash salt _ hsalt hdig]
    simpa using hcol
  · intro w s hps
    unfold verify_password
    rw [hps]

/-- Witness for C8: a one-character salt and password under a concrete
digest function. -/
theorem C8_password_roundtrip_witness :
    hash_password (fun s pw => s ++ pw) ['s'] ['a'] =
      .ok (encodeHash ⟨argonVariant, ['s'], ['s', 'a']⟩) ∧
    verify_password (fun s pw => s ++ pw) ['a']
      (encodeHash ⟨argonVariant, ['s'], ['s', 'a']⟩) = true ∧
    (∀ w : Chars, w ≠ ['a'] → (fun s pw => s ++ pw) ['s'] w ≠ ['s', 'a'] →
      verify_password (fun s pw => s ++ pw) w
        (encodeHash ⟨argonVariant, ['s'], ['s', 'a']⟩) = false) ∧
    (∀ (w s : Chars), parseHash s = none →
      verify_password (fun s pw => s ++ pw) w s = false) :=
  C8_password_roundtrip (fun s pw => s ++ pw) ['s'] ['a'] (by decide) (by decide) (by decide)

end Security

namespace ClientId

theorem findSome?_congr {α β : Type} (l : List α) (f g : α → Option β)
    (h : ∀ x ∈ l, f x = g x) : l.findSome? f = l.findSome? g := by
  induction l with
  | nil => rfl
  | cons a l ih =>
      rw [List.findSome?_cons, List.findSome?_cons, h a (List.mem_cons_self a l),
        ih (fun x hx => h x (List.mem_cons_of_mem a hx))]

theorem find?_flatMap {α β : Type} (l : List α) (C : α → List β) (P : β → Bool) :
    (l.flatMap C).find? P = l.findSome? (fun a => (C a).find? P) := by
  induction l with
  | nil => rfl
  | cons a l ih =>
      rw [List.flatMap_cons, List.find?_append, List.findSome?_cons]
      cases h : (C a).find? P <;> simp [h, ih, Option.or]

theorem extractFromValue_eq (env : Env) (v : Chars) :
    extractFromValue env v =
      ((Util.splitOnChar ',' v).map strip).find?
        (fun ip => !ip.isEmpty && (env.parse_ip ip).isSome) := by
  unfold extractFromValue
  generalize Util.splitOnChar ',' v = cs
  induction cs with
  | nil => rfl
  | cons cand cs ih =>
      rw [List.findSome?_cons, List.map_cons, List.find?_cons]
      by_cases h1 : strip cand = []
      · simp [h1, ih]
      · cases h2 : env.parse_ip (strip cand) with
        | none => simp [h1, h2, ih]
        | some a =>
            have h3 : (strip cand).isEmpty = false := by simpa [List.isEmpty_iff] using h1
            simp [h1, h2, h3]

theorem extract_eq_specFirstValid (env : Env) (req : Request) :
    _extract_client_ip_from_headers env req = specFirstValidIp env req := by
  unfold _extract_client_ip_from_headers specFirstValidIp specCandidates
  rw [find?_flatMap]
  apply findSome?_congr
  intro h hmem
  cases hg : getHeader req h with
  | none => simp
  | some v =>
      by_cases hv : v = []
      · simp [hv]
      · simp only [if_neg hv]
        exact extractFromValue_eq env v

/-- C5: the client identifier agrees with its specification: the first
syntactically valid forwarded IP (headers in configured order, first
valid value wins) when the direct transport address is an IP inside a
trusted-proxy range, otherwise the direct transport address, and the
anonymous sentinel when no direct address is available at all. -/
theorem C5_client_identifier (env : Env) (req : Request) :
    default_client_identifier env req = specClientIdentifier env req ∧
    _extract_client_ip_from_headers env req = specFirstValidIp env req := by
  refine ⟨?_, extract_eq_specFirstValid env req⟩
  unfold default_client_identifier _remote_ip specClientIdentifier
  cases hch : req.client_host with
  | none => simp
  | some host =>
      by_cases hhost : host = []
      · simp [hhost]
      · cases hp : env.parse_ip host with
        | none => simp [hhost, hp]
        | some addr =>
            by_cases htr : env.trusted.any (fun n => n addr)
            · rw [extract_eq_specFirstValid]
              cases hex : specFirstValidIp env req with
              | none => simp [hhost, hp, htr, hex]
              | some ip =>
                  have hipP := List.find?_some hex
                  have hip : ip ≠ [] := by
                    intro hnil
                    rw [hnil] at hipP
                    simp at hipP
                  simp [hhost, hp, htr, hex, hip]
            · simp [hhost, hp, htr]

/-- Witness for C5: the refinement equalities at the fixture request
coming through the trusted proxy. -/
theorem C5_client_identifier_witness :
    default_client_identifier demoEnv demoReq = specClientIdentifier demoEnv demoReq ∧
    _extract_client_ip_from_headers demoEnv demoReq = specFirstValidIp demoEnv demoReq :=
  C5_client_identifier demoEnv demoReq

end ClientId

namespace Auth

theorem find?_map_hash (f : TokenRecord → TokenRecord)
    (hf : ∀ r, (f r).token_hash = r.token_hash) (k : Nat) (l : List TokenRecord) :
    (l.map f).find? (fun r => r.token_hash == k) =
      (l.find? (fun r => r.token_hash == k)).map f := by
  induction l with
  | nil => rfl
  | cons x xs ih =>
      rw [List.map_cons, List.find?_cons, List.find?_cons, hf x]
      cases h : (x.token_hash == k) <;> simp [h, ih]

theorem find_revoke (st : AuthState) (k k2 now : Nat) :
    (st.revoke k2 now).find k =
      (st.find k).map (fun r =>
        if r.token_hash == k2 && r.revoked_at == none then { r with revoked_at := some now }
        else r) := by
  unfold AuthState.revoke AuthState.find
  exact find?_map_hash _ (fun r => by split <;> rfl) k st.tokens

theorem find_store (st : AuthState) (uid : Nat) (t : Token) (k : Nat) (row : TokenRecord)
    (h : st.find k = some row) : (_store_refresh_token st uid t).find k = some row := by
  unfold _store_refresh_token AuthState.find
  unfold AuthState.find at h
  rw [List.find?_append, h]
  rfl

theorem refresh_ok_inversion {now jtiR : Nat} {t newTok : Token} {st st' : AuthState}
    (h : refresh_tokens now jtiR (some t) st = .ok (newTok, st')) :
    ∃ row, st.find (_hash_refresh_token t) = some row ∧ row.revoked_at = none ∧
      now < row.expires_at ∧ t.typ = TokType.refresh ∧ now < t.exp ∧
      newTok = create_refresh_token t.sub now jtiR ∧
      st' = _store_refresh_token (st.revoke (_hash_refresh_token t) now) t.sub newTok := by
  unfold refresh_tokens at h
  dsimp only at h
  cases hdec : decode_token now t with
  | none => rw [hdec] at h; simp at h
  | some payload =>
      rw [hdec] at h
      have hpt : t = payload ∧ now < t.exp := by
        unfold decode_token at hdec
        split at hdec
        · cases hdec
        · rename_i hexp
          exact ⟨Option.some.inj hdec, by omega⟩
      obtain ⟨heq, hexpT⟩ := hpt
      subst heq
      dsimp only at h
      by_cases htyp : t.typ = TokType.refresh
      case neg =>
        rw [if_pos htyp] at h
        simp at h
      case pos =>
        rw [if_neg (not_not_intro htyp)] at h
        cases hget : _get_refresh_token st now t with
        | error e => rw [hget] at h; simp at h
        | ok row =>
          rw [hget] at h
          simp only [Except.ok.injEq, Prod.mk.injEq] at h
          obtain ⟨hnew, hst⟩ := h
          unfold _get_refresh_token at hget
          cases hfind : st.find (_hash_refresh_token t) with
          | none => rw [hfind] at hget; simp at hget
          | some row0 =>
            rw [hfind] at hget
            dsimp only at hget
            by_cases hrev : row0.revoked_at = none
            case neg =>
              rw [if_pos (by simpa using hrev)] at hget
              simp at hget
            case pos =>
              rw [if_neg (by simpa using hrev)] at hget
              by_cases hexp2 : row0.expires_at ≤ now
              case pos =>
                rw [if_pos hexp2] at hget
                simp at hget
              case neg =>
                rw [if_neg hexp2] at hget
                have hrr : row0 = row := by simpa using hget
                subst hrr
                subst hnew
                subst hst
                exact ⟨row0, rfl, hrev, by omega, htyp, hexpT, rfl, rfl⟩

theorem step_preserves_revoked {st st' : AuthState} (hstep : Step st st') {k n : Nat}
    {row : TokenRecord} (hfind : st.find k = some row) (hrev : row.revoked_at = some n) :
    st'.find k = some row := by
  have hstamp : ∀ k2 now2, (st.revoke k2 now2).find k = some row := by
    intro k2 now2
    rw [find_revoke, hfind]
    simp [hrev]
  cases hstep with
  | loginStep uid now jtiR st =>
      exact find_store st uid _ k row hfind
  | refreshStep hok =>
      obtain ⟨row0, hfind0, hrev0, hexp0, htyp0, hexpT, hnew, hst'⟩ :=
        refresh_ok_inversion hok
      rw [hst']
      exact find_store _ _ _ k row (hstamp _ _)
  | logoutStep now cookie st =>
      unfold logout
      cases cookie with
      | none => exact hfind
      | some t2 =>
          cases hf2 : st.find (_hash_refresh_token t2) with
          | none => simpa [hf2] using hfind
          | some row2 =>
              by_cases hr2 : row2.revoked_at = none
              · simp only [hf2, if_pos hr2]
                exact hstamp _ _
              · simp only [hf2, if_neg hr2]
                exact hfind

theorem reach_preserves_revoked {st st' : AuthState}
    (h : Relation.ReflTransGen Step st st') {k n : Nat} {row : TokenRecord}
    (hfind : st.find k = some row) (hrev : row.revoked_at = some n) :
    st'.find k = some row := by
  induction h with
  | refl => exact hfind
  | tail hsteps hstep ih => exact step_preserves_revoked hstep ih hrev

theorem refresh_revoked_fails (now2 jti2 : Nat) (t : Token) (st : AuthState)
    (row : TokenRecord) (hfind : st.find (_hash_refresh_token t) = some row)
    (hrev : row.revoked_at ≠ none) :
    refresh_tokens now2 jti2 (some t) st = .error .unauthorized := by
  have hget : _get_refresh_token st now2 t = .error .unauthorized := by
    unfold _get_refresh_token
    simp [hfind, hrev]
  unfold refresh_tokens
  cases hdec : decode_token now2 t with
  | none => simp [hdec]
  | some payload =>
      simp only [hdec]
      by_cases htyp : payload.typ ≠ TokType.refresh
      · simp [htyp]
      · simp [htyp, hget]

/-- C2: a successful refresh stamps the presented token's row with a
revocation time in the same committed state that stores the rotated
token, and from that state on, through any sequence of login, refresh
and logout transitions, presenting the same refresh token again always
fails Unauthorized. -/
theorem C2_refresh_single_use {now jtiR : Nat} {t newTok : Token} {st st' : AuthState}
    (hok : refresh_tokens now jtiR (some t) st = .ok (newTok, st')) :
    (∃ row, st'.find (_hash_refresh_token t) = some row ∧ row.revoked_at = some now) ∧
    (∀ st'' : AuthState, Relation.ReflTransGen Step st' st'' →
      ∀ (now2 jti2 : Nat),
        refresh_tokens now2 jti2 (some t) st'' = .error .unauthorized) := by
  obtain ⟨row0, hfind0, hrev0, hexp0, htyp0, hexpT, hnew, hst'⟩ := refresh_ok_inversion hok
  have hkey : (row0.token_hash == _hash_refresh_token t) = true := by
    have h := hfind0
    unfold AuthState.find at h
    exact @List.find?_some _ (fun r => r.token_hash == _hash_refresh_token t) row0 st.tokens h
  have hstamped : st'.find (_hash_refresh_token t) =
      some ({ row0 with revoked_at := some now }) := by
    rw [hst']
    apply find_store
    rw [find_revoke, hfind0]
    have hcond : (row0.token_hash == _hash_refresh_token t && row0.revoked_at == none) = true := by
      rw [hkey, hrev0]
      rfl
    simp only [Option.map_some']
    rw [hcond]
    simp
  refine ⟨⟨_, hstamped, rfl⟩, ?_⟩
  intro st'' hreach now2 jti2
  have hfind'' : st''.find (_hash_refresh_token t) =
      some ({ row0 with revoked_at := some now }) :=
    reach_preserves_revoked hreach hstamped rfl
  exact refresh_revoked_fails now2 jti2 t st'' _ hfind'' (by simp)

/-- Witness for C2: the demo refresh at t = 10 revokes the presented
token and every later presentation of it fails. -/
theorem C2_refresh_single_use_witness :
    (∃ row, demoAuthAfter.find (_hash_refresh_token demoToken) = some row ∧
      row.revoked_at = some 10) ∧
    (∀ st'' : AuthState, Relation.ReflTransGen Step demoAuthAfter st'' →
      ∀ (now2 jti2 : Nat),
        refresh_tokens now2 jti2 (some demoToken) st'' = .error .unauthorized) :=
  @C2_refresh_single_use 10 43 demoToken (create_refresh_token 1 10 43) demoAuthStart
    demoAuthAfter (by rfl)

end Auth

namespace FeedSvc

theorem flatMap_congr {α β : Type} (l : List α) (f g : α → List β)
    (h : ∀ x ∈ l, f x = g x) : l.flatMap f = l.flatMap g := by
  induction l with
  | nil => rfl
  | cons x xs ih =>
      rw [List.flatMap_cons, List.flatMap_cons, h x (List.mem_cons_self x xs),
        ih (fun y hy => h y (List.mem_cons_of_mem x hy))]

theorem flatMap_if_singleton {α : Type} (l : List α) (pred : α → Bool) :
    (l.flatMap (fun a => if pred a then [a] else [])) = l.filter pred := by
  induction l with
  | nil => rfl
  | cons x xs ih => by_cases h : pred x <;> simp [List.filter_cons, h, ih]

theorem length_filter_le_one_of_nodup_map {α β : Type} [DecidableEq β] (f : α → β)
    (l : List α) (h : (l.map f).Nodup) (b : β) :
    (l.filter (fun x => f x == b)).length ≤ 1 := by
  induction l with
  | nil => simp
  | cons x xs ih =>
      simp only [List.map_cons, List.nodup_cons] at h
      obtain ⟨hx, hxs⟩ := h
      by_cases hb : (f x == b) = true
      · have hb' : f x = b := by simpa using hb
        have hnil : xs.filter (fun y => f y == b) = [] := by
          apply List.filter_eq_nil_iff.mpr
          intro y hy hyb
          have hyb' : f y = b := by simpa using hyb
          exact hx (by rw [hb', ← hyb']; exact List.mem_map_of_mem f hy)
        simp [List.filter_cons, hb, hnil]
      · simp only [List.filter_cons, hb, Bool.false_eq_true, if_false]
        exact ih hxs

theorem length_filter_le_one_of_nodup {α : Type} (l : List α) (h : l.Nodup)
    (p : α → Bool) (c : α) (hp : ∀ x, p x = true → x = c) :
    (l.filter p).length ≤ 1 := by
  have hnd : (l.filter p).Nodup := h.filter p
  cases hfl : l.filter p with
  | nil => simp
  | cons y ys =>
      have hnd2 : (y :: ys).Nodup := hfl ▸ hnd
      rw [List.nodup_cons] at hnd2
      have hys : ys = [] := by
        rcases ys with _ | ⟨z, zs⟩
        · rfl
        · exfalso
          have hzc : z = c := hp z (List.of_mem_filter
            (by rw [hfl]; exact List.mem_cons_of_mem y (List.mem_cons_self z zs)))
          have hyc : y = c := hp y (List.of_mem_filter
            (by rw [hfl]; exact List.mem_cons_self y _))
          exact hnd2.1 (by rw [hyc, ← hzc]; exact List.mem_cons_self z zs)
      simp [hys]

theorem joinRows_map_fst (db : DB) (viewer : Nat)
    (hu : (db.users.map (fun u => u.id)).Nodup) (hf : db.follows.Nodup) :
    (joinRows db viewer).map Prod.fst = specFollowedPosts viewer db := by
  unfold joinRows specFollowedPosts
  rw [List.map_flatMap]
  rw [flatMap_congr db.posts _
    (fun p => if (db.users.any (fun u => u.id == p.author_id) &&
      db.follows.any (fun f => f.followee_id == p.author_id && f.follower_id == viewer)) = true
      then [p] else []) ?_]
  · rw [flatMap_if_singleton]
  · intro p _
    have hlu : (db.users.filter (fun u => u.id == p.author_id)).length ≤ 1 :=
      length_filter_le_one_of_nodup_map _ _ hu _
    have hlf : (db.follows.filter (fun f =>
        f.followee_id == p.author_id && f.follower_id == viewer)).length ≤ 1 := by
      apply length_filter_le_one_of_nodup _ hf _ (FollowRec.mk viewer p.author_id)
      intro x hx
      cases x
      simp only [Bool.and_eq_true, beq_iff_eq] at hx
      simp [hx.1, hx.2]
    rcases huf : db.users.filter (fun u => u.id == p.author_id) with _ | ⟨u, _ | ⟨u2, us⟩⟩
    · have hany : db.users.any (fun u => u.id == p.author_id) = false := by
        rw [← Bool.not_eq_true]
        intro hc
        obtain ⟨x, hxmem, hxp⟩ := List.any_eq_true.mp hc
        have : x ∈ db.users.filter (fun u => u.id == p.author_id) :=
          List.mem_filter.mpr ⟨hxmem, hxp⟩
        rw [huf] at this
        cases this
      simp [huf, hany]
    · rcases hff : db.follows.filter (fun f =>
          f.followee_id == p.author_id && f.follower_id == viewer) with _ | ⟨f0, _ | ⟨f1, fs⟩⟩
      · have hany : db.follows.any (fun f =>
            f.followee_id == p.author_id && f.follower_id == viewer) = false := by
          rw [← Bool.not_eq_true]
          intro hc
          obtain ⟨x, hxmem, hxp⟩ := List.any_eq_true.mp hc
          have : x ∈ db.follows.filter (fun f =>
              f.followee_id == p.author_id && f.follower_id == viewer) :=
            List.mem_filter.mpr ⟨hxmem, hxp⟩
          rw [hff] at this
          cases this
        simp [huf, hff, hany]
      · have hanyu : db.users.any (fun u => u.id == p.author_id) = true := by
          apply List.any_eq_true.mpr
          have : u ∈ db.users.filter (fun u => u.id == p.author_id) := by
            rw [huf]; exact List.mem_cons_self u _
          exact ⟨u, (List.mem_filter.mp this).1, (List.mem_filter.mp this).2⟩
        have hanyf : db.follows.any (fun f =>
            f.followee_id == p.author_id && f.follower_id == viewer) = true := by
          apply List.any_eq_true.mpr
          have : f0 ∈ db.follows.filter (fun f =>
              f.followee_id == p.author_id && f.follower_id == viewer) := by
            rw [hff]; exact List.mem_cons_self f0 _
          exact ⟨f0, (List.mem_filter.mp this).1, (List.mem_filter.mp this).2⟩
        simp [huf, hff, hanyu, hanyf]
      · exfalso
        rw [hff] at hlf
        simp at hlf
    · exfalso
      rw [huf] at hlu
      simp at hlu

/-- C3: the home-feed handler never returns the feed: after its select
has run it pipes the rows through collect_like_meta, a name imported
from posts.py that posts.py does not define (and whose call site
passes keyword arguments PostResponse.from_post does not accept), so
every request errors.  The select the handler does execute produces,
under the schema's uniqueness constraints (unique user ids, unique
follow pairs) and no self-follow row, exactly the posts whose author
is a user the viewer follows, ordered newest first and with no post of
the viewer's own — the behaviour the claim states the endpoint should
expose. -/
theorem C3_home_feed_crashes (db : DB) (viewer : Nat)
    (hu : (db.users.map (fun u => u.id)).Nodup)
    (hf : db.follows.Nodup)
    (hself : FollowRec.mk viewer viewer ∉ db.follows) :
    home_feed viewer db = .error .missingCollectLikeMeta ∧
    ((feedQueryRows viewer db).map Prod.fst).Perm (specFollowedPosts viewer db) ∧
    List.Sorted newerFirst (feedQueryRows viewer db) ∧
    (∀ pr ∈ feedQueryRows viewer db, pr.fst.author_id ≠ viewer) := by
  refine ⟨rfl, ?_, List.sorted_insertionSort newerFirst (joinRows db viewer), ?_⟩
  · have hperm : (feedQueryRows viewer db).Perm (joinRows db viewer) :=
      List.perm_insertionSort newerFirst (joinRows db viewer)
    calc ((feedQueryRows viewer db).map Prod.fst).Perm
          ((joinRows db viewer).map Prod.fst) := hperm.map Prod.fst
      _ = specFollowedPosts viewer db := joinRows_map_fst db viewer hu hf
  · intro pr hpr
    have hmem : pr ∈ joinRows db viewer :=
      (List.perm_insertionSort newerFirst (joinRows db viewer)).mem_iff.mp hpr
    unfold joinRows at hmem
    simp only [List.mem_flatMap, List.mem_map, List.mem_filter] at hmem
    obtain ⟨p, hp, u, ⟨hu1, hu2⟩, f, ⟨hf1, hf2⟩, hpr2⟩ := hmem
    intro hauthor
    simp only [Bool.and_eq_true, beq_iff_eq] at hf2
    have hpa : p.author_id = viewer := by
      rw [← hpr2] at hauthor
      simpa using hauthor
    have hfv : f = FollowRec.mk viewer viewer := by
      cases f
      simp only [FollowRec.mk.injEq]
      exact ⟨hf2.2, hf2.1.trans hpa⟩
    exact hself (hfv ▸ hf1)

/-- Witness for C3: viewer 1's request against the fixture database
errors, while the select it ran would have produced the claimed
rows. -/
theorem C3_home_feed_crashes_witness :
    home_feed 1 demoDB = .error .missingCollectLikeMeta ∧
    ((feedQueryRows 1 demoDB).map Prod.fst).Perm (specFollowedPosts 1 demoDB) ∧
    List.Sorted newerFirst (feedQueryRows 1 demoDB) ∧
    (∀ pr ∈ feedQueryRows 1 demoDB, pr.fst.author_id ≠ 1) :=
  C3_home_feed_crashes demoDB 1 (by decide) (by decide) (by decide)

end FeedSvc

namespace Posts

open FeedSvc

/-- C9: fetching a post yields 404 when no such post exists, and
equally 404 when the post exists but the viewer is neither its author
nor a follower of its author; every error the handler produces is a
404 and never a 403, so the denied case is indistinguishable from the
missing case. -/
theorem C9_get_post_404 (db : DB) (viewer post_id : Nat) :
    ((∀ p ∈ db.posts, p.id ≠ post_id) → get_post db viewer post_id = .error 404) ∧
    (∀ p : PostRec, (db.posts.map (fun q => q.id)).Nodup → p ∈ db.posts →
      p.id = post_id → p.author_id ≠ viewer →
      (∀ f ∈ db.follows, ¬(f.follower_id = viewer ∧ f.followee_id = p.author_id)) →
      get_post db viewer post_id = .error 404) ∧
    (∀ e : Nat, get_post db viewer post_id = .error e → e = 404) := by
  refine ⟨?_, ?_, ?_⟩
  · intro h
    unfold get_post postRow
    have hnil : db.posts.filter (fun p => p.id == post_id) = [] :=
      List.filter_eq_nil_iff.mpr (fun p hp hpe => h p hp (by simpa using hpe))
    rw [hnil]
    rfl
  · intro p hpk hp hpid hnota hnof
    unfold get_post
    cases hrow : postRow db post_id with
    | none => rfl
    | some row =>
        have hmem : row ∈ (db.posts.filter (fun q => q.id == post_id)).flatMap (fun q =>
            (db.users.filter (fun u => u.id == q.author_id)).map (fun u => (q, u.name))) := by
          unfold postRow at hrow
          cases hls : (db.posts.filter (fun q => q.id == post_id)).flatMap (fun q =>
              (db.users.filter (fun u => u.id == q.author_id)).map (fun u => (q, u.name))) with
          | nil => rw [hls] at hrow; cases hrow
          | cons a as =>
              rw [hls] at hrow
              have : a = row := by simpa using hrow
              rw [← this]
              exact List.mem_cons_self a as
        simp only [List.mem_flatMap, List.mem_filter, List.mem_map] at hmem
        obtain ⟨q, ⟨hq1, hq2⟩, u, hu, heq⟩ := hmem
        have hqp : q = p := by
          apply List.inj_on_of_nodup_map hpk hq1 hp
          rw [hpid]
          simpa using hq2
        have hfst : row.fst = p := by
          rw [← heq, ← hqp]
        have hview : _user_can_view_post db viewer row.fst.author_id = false := by
          unfold _user_can_view_post
          rw [hfst]
          have h1 : (viewer == p.author_id) = false :=
            beq_eq_false_iff_ne.mpr (Ne.symm hnota)
          have h2 : db.follows.any (fun f =>
              f.follower_id == viewer && f.followee_id == p.author_id) = false := by
            rw [← Bool.not_eq_true]
            intro hc
            obtain ⟨f, hfmem, hfp⟩ := List.any_eq_true.mp hc
            simp only [Bool.and_eq_true, beq_iff_eq] at hfp
            exact hnof f hfmem hfp
          rw [h1, h2]
          rfl
        simp [hview]
  · intro e he
    unfold get_post at he
    cases hrow : postRow db post_id with
    | none =>
        rw [hrow] at he
        simpa using he.symm
    | some row =>
        rw [hrow] at he
        dsimp only at he
        by_cases hv : _user_can_view_post db viewer row.fst.author_id
        · rw [if_pos hv] at he
          cases he
        · rw [if_neg hv] at he
          simpa using he.symm

/-- Witness for C9: viewer 2 follows nobody, so fetching post 11 by
author 1 in the fixture database is a 404. -/
theorem C9_get_post_404_witness : get_post FeedSvc.demoDB 2 11 = .error 404 :=
  (C9_get_post_404 FeedSvc.demoDB 2 11).2.1 ⟨11, 1, 3⟩ (by decide) (by decide) (by decide)
    (by decide) (by decide)

end Posts
